import Mathlib

/-!
Verification development for the photoshare data-access and query layer.

The Go source is shallowly embedded: Go strings are lists of Unicode code
points (List Nat), Go int64 values are integers (Int; the int64 range is
carried as an explicit side condition where it matters), database rows are
Lean structures and tables are lists of rows. Fallible operations return
Option. Every definition is translated from the corresponding function of
the source except where a doc comment says it is modelled from the spec
(used only for code of the repository that is not part of the given tree,
such as the add_tags SQL function and the session helper checkAuth).
-/

/-! ## Character-list utilities (strings as lists of code points) -/

/-- ASCII whitespace test, modelling unicode.IsSpace as the Go standard
library applies it to the ASCII range used by this code base:
tab (9), LF (10), VT (11), FF (12), CR (13) and space (32). -/
def isSpaceB (c : Nat) : Bool :=
  decide (c = 32 ∨ (9 ≤ c ∧ c ≤ 13))

/-- strings.ToLower on one code point, ASCII range. -/
def toLowerN (c : Nat) : Nat :=
  if 65 ≤ c ∧ c ≤ 90 then c + 32 else c

/-- SQL UPPER on one code point, ASCII range. -/
def toUpperN (c : Nat) : Nat :=
  if 97 ≤ c ∧ c ≤ 122 then c - 32 else c

/-- strings.ToLower over a whole string. -/
def toLowerL (s : List Nat) : List Nat := s.map toLowerN

/-- SQL UPPER over a whole string. -/
def upperL (s : List Nat) : List Nat := s.map toUpperN

/-- strings.TrimSpace: drop leading and trailing whitespace. -/
def trimSpace (s : List Nat) : List Nat :=
  ((s.dropWhile isSpaceB).reverse.dropWhile isSpaceB).reverse

/-- strings.Split generalised to a predicate on the separator code point:
splitOnP p s cuts s at every point satisfying p; strings.Split(q, " ")
is splitOnP (fun c => c == 32). The empty string splits into one empty
piece, as in Go. -/
def splitOnP (p : Nat → Bool) : List Nat → List (List Nat)
  | [] => [[]]
  | c :: rest =>
    if p c then [] :: splitOnP p rest
    else
      match splitOnP p rest with
      | [] => [[c]]
      | t :: ts => (c :: t) :: ts

/-- Leading-segment test: leadsList pat l is true when pat is an initial
segment of l (used only by the spec-side substring predicate). -/
def leadsList : List Nat → List Nat → Bool
  | [], _ => true
  | _ :: _, [] => false
  | a :: as, b :: bs => a == b && leadsList as bs

/-- Substring occurrence: occursIn pat l is true when pat occurs
contiguously somewhere in l (used only by the spec-side predicates). -/
def occursIn (pat : List Nat) : List Nat → Bool
  | [] => leadsList pat []
  | l@(_ :: rest) => leadsList pat l || occursIn pat rest

/-- SQL LIKE matching, fuel-indexed: every recursive call shrinks the
combined length of pattern and text, so fuel equal to that combined
length plus one is never exhausted. -/
def likeMatchAux : Nat → List Nat → List Nat → Bool
  | 0, _, _ => false
  | _ + 1, [], t => t.isEmpty
  | fuel + 1, p :: ps, t =>
    if p = 37 then
      likeMatchAux fuel ps t ||
        (match t with
         | [] => false
         | _ :: ts => likeMatchAux fuel (p :: ps) ts)
    else
      match t with
      | [] => false
      | c :: ts => (p == 95 || p == c) && likeMatchAux fuel ps ts

/-- SQL LIKE pattern matching as PostgreSQL evaluates the patterns this
code generates: 37 (percent) matches any sequence, 95 (underscore) matches
any single code point, anything else matches itself. -/
def likeMatch (pat text : List Nat) : Bool :=
  likeMatchAux (pat.length + text.length + 1) pat text

/-- strings.Join with separator "," (code point 44). -/
def joinComma : List (List Nat) → List Nat
  | [] => []
  | [x] => x
  | x :: xs => x ++ 44 :: joinComma xs

/-! ## Decimal formatting and parsing (strconv.FormatInt / strconv.Atoi) -/

/-- Big-endian decimal digit codes of n, positional helper with explicit
fuel; fuel 64 covers every value below 10^64, far beyond the int64 range
the Go code passes in. -/
def natToDecAux : Nat → Nat → List Nat
  | 0, _ => []
  | fuel + 1, n => if n = 0 then [] else natToDecAux fuel (n / 10) ++ [n % 10 + 48]

/-- strconv.FormatInt(n, 10) for a non-negative value. -/
def natToDec (n : Nat) : List Nat :=
  if n = 0 then [48] else natToDecAux 64 n

/-- strconv.FormatInt(n, 10) over the integers. -/
def intToDec (n : Int) : List Nat :=
  if n < 0 then 45 :: natToDec (-n).toNat else natToDec n.toNat

/-- Unsigned decimal parse: all digits required, empty refused. -/
def decToNat? (s : List Nat) : Option Nat :=
  if s ≠ [] ∧ s.all (fun c => 48 ≤ c && c ≤ 57) then
    some (s.foldl (fun a c => a * 10 + (c - 48)) 0)
  else none

/-- The int64 range check strconv.Atoi performs on a 64-bit platform. -/
def inInt64 (n : Int) : Bool :=
  decide (-9223372036854775808 ≤ n ∧ n ≤ 9223372036854775807)

/-- strconv.Atoi: optional sign, digits, and the int64 range check (an
out-of-range value is an error, which the caller treats as no value). -/
def goAtoi (s : List Nat) : Option Int :=
  let raw : Option Int :=
    match s with
    | [] => none
    | c :: rest =>
      if c = 45 then (decToNat? rest).map (fun n => -(n : Int))
      else if c = 43 then (decToNat? rest).map (fun n => (n : Int))
      else (decToNat? s).map (fun n => (n : Int))
  raw.bind (fun n => if inInt64 n then some n else none)

/-! ## PostgreSQL array encoding of the vote set (part_001 lines 594-614) -/

/-- strings.TrimLeft(s, "{") then strings.TrimRight(s, "}"). -/
def trimBraces (s : List Nat) : List Nat :=
  ((s.dropWhile (fun c => c == 123)).reverse.dropWhile (fun c => c == 125)).reverse

/-- pgArrToIntSlice: strip the braces, split on commas, keep the pieces
strconv.Atoi accepts. -/
def pgArrToIntSlice (s : List Nat) : List Int :=
  (splitOnP (fun c => c == 44) (trimBraces s)).filterMap goAtoi

/-- intSliceToPgArr: decimal-format each value, join with commas, wrap in
braces. -/
def intSliceToPgArr (items : List Int) : List Nat :=
  123 :: (joinComma (items.map intToDec) ++ [125])

/-! ## The User and Photo aggregates (part_001 lines 86-95 and 504-591) -/

/-- The columns of the users table this layer reads, plus the transient
IsAuthenticated flag. CreatedAt and RecoveryCode play no part in any
claim and are omitted. -/
structure UserM where
  id : Int
  name : List Nat
  password : List Nat
  email : List Nat
  votes : List Nat
  isAdmin : Bool
  isActive : Bool
  isAuthenticated : Bool
deriving DecidableEq

/-- The columns of the photos table this layer reads. CreatedAt and
Filename play no part in any claim and are omitted; the tag associations
live in their own table (TagDB below). -/
structure PhotoM where
  id : Int
  ownerId : Int
  title : List Nat
  upVotes : Int
  downVotes : Int
deriving DecidableEq

/-- User.GetVotes: decode the embedded vote-set string. -/
def getVotes (u : UserM) : List Int := pgArrToIntSlice u.votes

/-- User.SetVotes: encode and store the vote set. -/
def setVotes (u : UserM) (v : List Int) : UserM :=
  { u with votes := intSliceToPgArr v }

/-- User.RegisterVote: append the photo id to the decoded vote set and
re-encode. -/
def registerVote (u : UserM) (photoID : Int) : UserM :=
  setVotes u (getVotes u ++ [photoID])

/-- User.HasVoted: linear scan of the decoded vote set. -/
def hasVoted (u : UserM) (photoID : Int) : Bool :=
  (getVotes u).contains photoID

/-! ## Permissions (part_001 lines 107-133) -/

/-- Photo.CanEdit. -/
def canEdit (photo : PhotoM) (user : Option UserM) : Bool :=
  match user with
  | none => false
  | some u =>
    if !u.isAuthenticated then false
    else u.isAdmin || photo.ownerId == u.id

/-- Photo.CanDelete. -/
def canDelete (photo : PhotoM) (user : Option UserM) : Bool :=
  canEdit photo user

/-- Photo.CanVote. -/
def canVote (photo : PhotoM) (user : Option UserM) : Bool :=
  match user with
  | none => false
  | some u =>
    if !u.isAuthenticated then false
    else if photo.ownerId == u.id then false
    else !(hasVoted u photo.id)

/-- The viewer-relative Permissions triple GetDetail assembles. -/
structure PermissionsM where
  edit : Bool
  delete : Bool
  vote : Bool
deriving DecidableEq

/-- The Permissions value of GetDetail (part_001 lines 242-246). -/
def permissionsOf (photo : PhotoM) (user : Option UserM) : PermissionsM :=
  { edit := canEdit photo user
    delete := canDelete photo user
    vote := canVote photo user }

/-! ## The vote handler (part_001 lines 913-960) -/

/-- The outcome the handler renders: 401, 404, 403 or 200. -/
inductive VoteOutcome
  | unauthorized
  | notFound
  | forbidden
  | success
deriving DecidableEq

/-- The vote handler run sequentially against in-memory aggregates.
checkAuth is not part of the given tree; modelled from the spec
("user must be authenticated", rejected as Unauthorized otherwise),
matching the sibling handler that spells the same check out. The photo
argument is the result of getPhoto (none models the not-found path); the
Boolean selects voteUp (true) or voteDown (false), the closures passed by
those two wrappers. Store updates are modelled by returning the updated
user row and photo row. -/
def voteHandler (u : UserM) (photo : Option PhotoM) (up : Bool) :
    VoteOutcome × UserM × Option PhotoM :=
  if !u.isAuthenticated then (.unauthorized, u, photo)
  else
    match photo with
    | none => (.notFound, u, photo)
    | some p =>
      if !canVote p (some u) then (.forbidden, u, some p)
      else
        let p' := if up then { p with upVotes := p.upVotes + 1 }
                  else { p with downVotes := p.downVotes + 1 }
        (.success, registerVote u p.id, some p')

/-! ## Interleaved execution of two vote requests (claim C1)

The handler issues three separate store operations: the reads feeding the
CanVote check, photoMgr.Update writing the photo row from the handler's
in-memory copy, and userMgr.Update writing the user row from the
handler's in-memory copy. Nothing wraps them in a transaction, so steps
of two concurrent requests may interleave; each store operation is one
atomic step. The fixed scenario is the one of the claim: user 5
(authenticated, not admin, empty vote set) and two voteUp requests for
photo 9 owned by user 1. -/

/-- The shared persisted state: the user row's votes column and the photo
row's counters. -/
structure VoteDB where
  votesStr : List Nat
  up : Int
  down : Int
deriving DecidableEq

/-- Where one in-flight request stands: before its reads and check, about
to write the photo row (carrying its in-memory snapshot), about to write
the user row, or finished with its rendered outcome. -/
inductive VotePhase
  | ready
  | writingPhoto (snapVotes : List Nat) (snapUp snapDown : Int)
  | writingUser (snapVotes : List Nat)
  | finished (ok : Bool)
deriving DecidableEq

/-- The user row user 5's request reads from the shared state. -/
def c1User (db : VoteDB) : UserM :=
  { id := 5, name := [], password := [], email := [], votes := db.votesStr
    isAdmin := false, isActive := true, isAuthenticated := true }

/-- The photo row the request reads from the shared state. -/
def c1Photo (db : VoteDB) : PhotoM :=
  { id := 9, ownerId := 1, title := [], upVotes := db.up, downVotes := db.down }

/-- One atomic store operation of one voteUp request, exactly the three
round trips of the handler: read-and-check (CanVote over the current
rows), write the photo row from the snapshot with UpVotes incremented,
write the user row from the snapshot with RegisterVote applied. -/
def voteStep (db : VoteDB) (ph : VotePhase) : VoteDB × VotePhase :=
  match ph with
  | .ready =>
    if canVote (c1Photo db) (some (c1User db)) then
      (db, .writingPhoto db.votesStr db.up db.down)
    else (db, .finished false)
  | .writingPhoto sv su sd => ({ db with up := su + 1, down := sd }, .writingUser sv)
  | .writingUser sv =>
    ({ db with votesStr := (registerVote { c1User db with votes := sv } 9).votes },
     .finished true)
  | .finished b => (db, .finished b)

/-- Run a schedule over two concurrent requests A and B: true steps A,
false steps B. -/
def runSched : List Bool → VoteDB × VotePhase × VotePhase → VoteDB × VotePhase × VotePhase
  | [], s => s
  | a :: rest, (db, pa, pb) =>
    if a then
      let s' := voteStep db pa
      runSched rest (s'.1, s'.2, pb)
    else
      let s' := voteStep db pb
      runSched rest (s'.1, pa, s'.2)

/-! ## Tag normalization and synchronization (part_001 lines 172-194) -/

/-- The normalization loop of UpdateTags: trim each raw tag, skip the
ones that trim to nothing, lowercase the rest. -/
def normalizeTags : List (List Nat) → List (List Nat)
  | [] => []
  | t :: ts =>
    let t' := trimSpace t
    if t' = [] then normalizeTags ts else toLowerL t' :: normalizeTags ts

/-- The tags table and the photo_tags association table. -/
structure TagDB where
  tags : List (Int × List Nat)
  photoTags : List (Int × Int)
deriving DecidableEq

/-- A fresh tag identifier (one more than the largest in use). -/
def freshTagId (db : TagDB) : Int :=
  1 + db.tags.foldl (fun m t => max m t.1) 0

/-- Modelled from the spec: the SQL function add_tags lives in a database
migration that is not part of the given tree. Per the spec this pass
creates each desired tag row if absent. -/
def ensureTags : TagDB → List (List Nat) → TagDB
  | db, [] => db
  | db, n :: ns =>
    if db.tags.any (fun t => t.2 == n) then ensureTags db ns
    else ensureTags { db with tags := db.tags ++ [(freshTagId db, n)] } ns

/-- The identifiers of the tag rows carrying the given names. -/
def tagIdsFor (db : TagDB) (names : List (List Nat)) : List Int :=
  db.tags.filterMap (fun t => if names.contains t.2 then some t.1 else none)

/-- Modelled from the spec: the SQL function add_tags is not part of the
given tree. Per the spec it creates missing tag rows, ensures an
association for every desired tag, and removes the photo's associations
that are not in the desired set. -/
def addTags (db : TagDB) (photoId : Int) (desired : List (List Nat)) : TagDB :=
  let db' := ensureTags db desired
  let ids := tagIdsFor db' desired
  { db' with
    photoTags :=
      db'.photoTags.filter (fun pt => pt.1 != photoId || ids.contains pt.2) ++
        (ids.filter (fun i => !db'.photoTags.contains (photoId, i))).map
          (fun i => (photoId, i)) }

/-- defaultPhotoManager.UpdateTags: normalize the raw tags; when nothing
survives and the photo exists, delete every association of the photo;
otherwise call add_tags. -/
def updateTags (db : TagDB) (photoId : Int) (rawTags : List (List Nat)) : TagDB :=
  let desired := normalizeTags rawTags
  if desired = [] ∧ photoId ≠ 0 then
    { db with photoTags := db.photoTags.filter (fun pt => pt.1 != photoId) }
  else addTags db photoId desired

/-- The tag read of GetDetail: names of tag rows joined through the
photo's association rows (part_001 lines 231-240). -/
def readTags (db : TagDB) (photoId : Int) : List (List Nat) :=
  (db.photoTags.filter (fun pt => pt.1 == photoId)).flatMap
    (fun pt => (db.tags.filter (fun t => t.1 == pt.2)).map Prod.snd)

/-! ## Search tokenization and predicate compilation (part_001 lines 274-344) -/

/-- The Search token loop: for each piece of strings.Split(q, " ") in
order, trim it; stop at the first piece that trims to nothing or once the
0-based piece index exceeds 6; otherwise keep the trimmed piece. -/
def tokenizeAux : Nat → List (List Nat) → List (List Nat)
  | _, [] => []
  | num, w :: ws =>
    let w' := trimSpace w
    if w' = [] ∨ num > 6 then []
    else w' :: tokenizeAux (num + 1) ws

/-- The tokens Search compiles predicates for. -/
def tokenize (q : List Nat) : List (List Nat) :=
  tokenizeAux 0 (splitOnP (fun c => c == 32) q)

/-- A compiled search token: owner-exact (for a leading 64, at-sign),
tag-exact (for a leading 35, hash), or fuzzy with the remaining word
already wrapped in LIKE percents. -/
inductive SearchTok
  | owner (w : List Nat)
  | tagged (w : List Nat)
  | fuzzy (w : List Nat)
deriving DecidableEq

/-- Token classification: strip an at-sign or hash, otherwise wrap the
word in percents for the LIKE patterns. -/
def classifyTok (w : List Nat) : SearchTok :=
  match w with
  | [] => .fuzzy (37 :: ([] ++ [37]))
  | c :: rest =>
    if c = 64 then .owner rest
    else if c = 35 then .tagged rest
    else .fuzzy (37 :: ((c :: rest) ++ [37]))

/-- The token list Search turns into sub-queries. -/
def searchToks (q : List Nat) : List SearchTok :=
  (tokenize q).map classifyTok

/-- The tables the search sub-queries touch. -/
structure SearchDB where
  photos : List PhotoM
  users : List UserM
  tags : List (Int × List Nat)
  photoTags : List (Int × Int)
deriving DecidableEq

/-- The join of photo_tags with tags: (photo id, tag name) pairs. -/
def tagJoin (db : SearchDB) : List (Int × List Nat) :=
  db.photoTags.flatMap
    (fun pt => (db.tags.filter (fun t => t.1 == pt.2)).map (fun t => (pt.1, t.2)))

/-- The WHERE clause of one compiled sub-query, evaluated at one photo:
owner-exact compares UPPER(u.name) with UPPER(word) over the owner join;
tag-exact compares UPPER(t.name) with UPPER(word) over the tag join;
fuzzy requires the owner join and takes UPPER(title) LIKE UPPER(pattern)
OR UPPER(owner name) LIKE UPPER(pattern) OR tag name LIKE pattern - the
tag disjunct carries no UPPER in the source. -/
def tokMatches (db : SearchDB) (tok : SearchTok) (p : PhotoM) : Bool :=
  match tok with
  | .owner w => db.users.any (fun u => u.id == p.ownerId && upperL u.name == upperL w)
  | .tagged w => (tagJoin db).any (fun pr => pr.1 == p.id && upperL pr.2 == upperL w)
  | .fuzzy w =>
    db.users.any (fun u =>
      u.id == p.ownerId &&
        (likeMatch (upperL w) (upperL p.title) || likeMatch (upperL w) (upperL u.name) ||
          (tagJoin db).any (fun pr => pr.1 == p.id && likeMatch w pr.2)))

/-- One sub-query's candidate rows. -/
def clauseRows (db : SearchDB) (tok : SearchTok) : List PhotoM :=
  db.photos.filter (tokMatches db tok)

/-- SQL INTERSECT of two row lists. -/
def intersectRows (l1 l2 : List PhotoM) : List PhotoM :=
  l1.filter (fun p => decide (p ∈ l2))

/-- The candidate set of Search before ordering and pagination: none for
the empty query (Search returns before querying) and none when no token
survives (the sub-query list is empty and the composed SQL is malformed,
so the store reports an error); otherwise the INTERSECT of every
sub-query's rows. -/
def searchCandidates (db : SearchDB) (q : List Nat) : Option (List PhotoM) :=
  if q = [] then none
  else
    match searchToks q with
    | [] => none
    | t :: ts =>
      some (ts.foldl (fun acc tk => intersectRows acc (clauseRows db tk)) (clauseRows db t))

/-- The per-token predicate as claim C3 words it: owner-exact and
tag-exact for the prefixed forms, and otherwise a case-insensitive
substring test over title, owner name or tag name (written from the
claim, to be compared with tokMatches). -/
def specTokMatches (db : SearchDB) (w : List Nat) (p : PhotoM) : Bool :=
  let fuzzy : Bool :=
    occursIn (upperL w) (upperL p.title) ||
      db.users.any (fun u => u.id == p.ownerId && occursIn (upperL w) (upperL u.name)) ||
      (tagJoin db).any (fun pr => pr.1 == p.id && occursIn (upperL w) (upperL pr.2))
  match w with
  | [] => fuzzy
  | c :: rest =>
    if c = 64 then db.users.any (fun u => u.id == p.ownerId && upperL u.name == upperL rest)
    else if c = 35 then (tagJoin db).any (fun pr => pr.1 == p.id && upperL pr.2 == upperL rest)
    else fuzzy

/-- Tokenization as claim C4 words it: split on whitespace, discard empty
tokens while continuing, cap at 6 (written from the claim, to be
compared with tokenize). -/
def specTokenize (q : List Nat) : List (List Nat) :=
  ((splitOnP isSpaceB q).filter (fun w => w ≠ [])).take 6

/-! ## Pagination (part_001 lines 64-73 and 379-385) -/

/-- getOffset: (pageNum - 1) * pageSize clamped below at 0. -/
def getOffset (pageNum : Int) : Int :=
  let offset := (pageNum - 1) * 12
  if offset < 0 then 0 else offset

/-- Floor of the base-2 logarithm, by fuel; fuel 64 covers every value
below 2^64, beyond the int64 range the Go code passes in. -/
def lg2Aux : Nat → Nat → Nat
  | 0, _ => 0
  | fuel + 1, n => if 2 ≤ n then lg2Aux fuel (n / 2) + 1 else 0

/-- Floor of the base-2 logarithm of a positive value below 2^64. -/
def lg2 (n : Nat) : Nat := lg2Aux 64 n

/-- Round a/b to the nearest integer, ties to the even integer: the IEEE
round-to-nearest-even rule over an exact non-negative quotient. -/
def roundNE (a b : Nat) : Nat :=
  let n := a / b
  let r := a % b
  if 2 * r < b then n
  else if b < 2 * r then n + 1
  else if n % 2 = 0 then n else n + 1

/-- Comparison of two non-negative dyadic values mx * 2^ex and my * 2^ey. -/
def dyadicGE (mx : Nat) (ex : Int) (my : Nat) (ey : Int) : Bool :=
  if ex ≥ ey then decide (mx * 2 ^ (ex - ey).toNat ≥ my)
  else decide (mx ≥ my * 2 ^ (ey - ex).toNat)

/-- A non-negative float64 as an exact dyadic value: mantissa times 2 to
the exponent. -/
def FloatRep : Type := Nat × Int

/-- The Go conversion float64(n) of a non-negative int64: round n to 53
significant bits, to nearest, ties to even mantissa. -/
def floatOfNat (n : Nat) : FloatRep :=
  if n = 0 then ((0 : Nat), (0 : Int))
  else
    let e : Int := (lg2 n : Int) - 52
    if e ≤ 0 then (n * 2 ^ (-e).toNat, e)
    else (roundNE n (2 ^ e.toNat), e)

/-- IEEE float64 division of two non-negative finite values: the exact
quotient correctly rounded to 53 significant bits, to nearest, ties to
even mantissa (normal range; this code divides photo counts by 12). -/
def floatDivF (x y : FloatRep) : FloatRep :=
  let mx := x.1
  let ex := x.2
  let my := y.1
  let ey := y.2
  if mx = 0 ∨ my = 0 then ((0 : Nat), (0 : Int))
  else
    let d : Int := ((lg2 mx : Int) + ex) - ((lg2 my : Int) + ey)
    let l : Int := if dyadicGE mx ex my (ey + d) then d else d - 1
    let e : Int := l - 52
    let sh : Int := ex - ey - e
    let a := if sh ≥ 0 then mx * 2 ^ sh.toNat else mx
    let b := if sh ≥ 0 then my else my * 2 ^ (-sh).toNat
    (roundNE a b, e)

/-- math.Ceil of a non-negative dyadic float64 value, as the integer the
Go conversion back to int64 yields. -/
def mathCeilF (x : FloatRep) : Nat :=
  if x.2 ≥ 0 then x.1 * 2 ^ x.2.toNat
  else (x.1 + 2 ^ (-x.2).toNat - 1) / 2 ^ (-x.2).toNat

/-- The numPages computation of NewPhotoList:
int64(math.Ceil(float64(total) / float64(pageSize))) with pageSize 12. -/
def numPagesGo (total : Nat) : Nat :=
  mathCeilF (floatDivF (floatOfNat total) (floatOfNat 12))

/-- The paginated envelope NewPhotoList fills (items elided: the claims
concern the counters). -/
structure PhotoListM where
  total : Nat
  currentPage : Int
  numPages : Nat
deriving DecidableEq

/-- NewPhotoList. -/
def newPhotoList (total : Nat) (page : Int) : PhotoListM :=
  { total := total, currentPage := page, numPages := numPagesGo total }

/-! ## Authentication (part_001 lines 483-498 and 565-571) -/

/-- The row SELECT ... WHERE active AND (email = identifier OR
name = identifier) finds: the first match in table order. -/
def findActiveByIdent (db : List UserM) (ident : List Nat) : Option UserM :=
  db.find? (fun u => u.isActive && (u.email == ident || u.name == ident))

/-- User.CheckPassword: an empty stored hash always fails; otherwise the
external bcrypt comparison decides, passed in as the verify parameter
(password hashing is an external collaborator). -/
def checkPasswordW (verify : List Nat → List Nat → Bool) (u : UserM) (pw : List Nat) : Bool :=
  if u.password = [] then false else verify u.password pw

/-- defaultUserManager.Authenticate: both failure paths (no matching
active row, password check failed) return the same empty result. -/
def authenticate (verify : List Nat → List Nat → Bool) (db : List UserM)
    (ident pw : List Nat) : Option UserM :=
  match findActiveByIdent db ident with
  | none => none
  | some u => if checkPasswordW verify u pw then some u else none

/-! ## Lemmas about dropWhile, trimSpace and toLowerL -/

lemma head?_dropWhile_false (p : Nat → Bool) (l : List Nat) (c : Nat)
    (h : (l.dropWhile p).head? = some c) : p c = false := by
  induction l with
  | nil => simp [List.dropWhile] at h
  | cons a t ih =>
    rw [List.dropWhile_cons] at h
    by_cases hpa : p a
    · exact ih (by simpa [hpa] using h)
    · simp [hpa] at h
      subst h
      simpa using hpa

lemma dropWhile_eq_self (p : Nat → Bool) (l : List Nat)
    (h : ∀ c, l.head? = some c → p c = false) : l.dropWhile p = l := by
  cases l with
  | nil => rfl
  | cons a t => simp [List.dropWhile_cons, h a rfl]

lemma getLast?_dropWhile (p : Nat → Bool) (l : List Nat)
    (h : l.dropWhile p ≠ []) : (l.dropWhile p).getLast? = l.getLast? := by
  induction l with
  | nil => simp at h
  | cons a t ih =>
    rw [List.dropWhile_cons] at h ⊢
    by_cases hpa : p a
    · have ht : t ≠ [] := by
        intro e
        apply h
        simp [hpa, e, List.dropWhile]
      rw [if_pos hpa]
      rw [if_pos hpa] at h
      rw [ih h]
      cases t with
      | nil => exact absurd rfl ht
      | cons b t2 => simp [List.getLast?_cons_cons]
    · simp [hpa]

lemma trim_head (s : List Nat) (c : Nat) (h : (trimSpace s).head? = some c) :
    isSpaceB c = false := by
  unfold trimSpace at h
  rw [List.head?_reverse] at h
  by_cases hz : (s.dropWhile isSpaceB).reverse.dropWhile isSpaceB = []
  · rw [hz] at h
    simp at h
  · rw [getLast?_dropWhile _ _ hz, List.getLast?_reverse] at h
    exact head?_dropWhile_false _ _ _ h

lemma trim_last (s : List Nat) (c : Nat) (h : (trimSpace s).getLast? = some c) :
    isSpaceB c = false := by
  unfold trimSpace at h
  rw [List.getLast?_reverse] at h
  exact head?_dropWhile_false _ _ _ h

lemma trim_trim (s : List Nat) : trimSpace (trimSpace s) = trimSpace s := by
  have h1 : (trimSpace s).dropWhile isSpaceB = trimSpace s :=
    dropWhile_eq_self _ _ (fun c hc => trim_head s c hc)
  have h2 : (trimSpace s).reverse.dropWhile isSpaceB = (trimSpace s).reverse :=
    dropWhile_eq_self _ _ (fun c hc => by
      rw [List.head?_reverse] at hc
      exact trim_last s c hc)
  conv_lhs => rw [trimSpace, h1, h2, List.reverse_reverse]

lemma isSpaceB_lower (c : Nat) : isSpaceB (toLowerN c) = isSpaceB c := by
  unfold toLowerN
  split
  · simp only [isSpaceB]
    rw [decide_eq_decide]
    omega
  · rfl

lemma lower_trim (s : List Nat) : trimSpace (toLowerL s) = toLowerL (trimSpace s) := by
  have hc : isSpaceB ∘ toLowerN = isSpaceB := funext isSpaceB_lower
  simp only [trimSpace, toLowerL, List.dropWhile_map, hc, ← List.map_reverse]

lemma toLowerN_idem (c : Nat) : toLowerN (toLowerN c) = toLowerN c := by
  unfold toLowerN
  by_cases h : 65 ≤ c ∧ c ≤ 90
  · rw [if_pos h, if_neg (by omega)]
  · rw [if_neg h, if_neg h]

lemma toLowerL_idem (s : List Nat) : toLowerL (toLowerL s) = toLowerL s := by
  have h : toLowerN ∘ toLowerN = toLowerN := funext toLowerN_idem
  simp [toLowerL, List.map_map, h]

lemma toLowerL_eq_nil (s : List Nat) : toLowerL s = [] ↔ s = [] := by
  simp [toLowerL]

/-! ## Claim C6: tag normalization -/

/-- The desired tag name set as the spec words it: trim, lowercase, drop
empty, deduplicate (the set value carries the deduplication). -/
def specDesiredTags (raw : List (List Nat)) : Finset (List Nat) :=
  (raw.filterMap
    (fun s => if trimSpace s = [] then none else some (toLowerL (trimSpace s)))).toFinset

lemma normalizeTags_eq_filterMap (raw : List (List Nat)) :
    normalizeTags raw =
      raw.filterMap
        (fun s => if trimSpace s = [] then none else some (toLowerL (trimSpace s))) := by
  induction raw with
  | nil => rfl
  | cons t ts ih =>
    by_cases h : trimSpace t = [] <;>
      simp [normalizeTags, List.filterMap_cons, h, ih]

lemma normalizeTags_idem (raw : List (List Nat)) :
    normalizeTags (normalizeTags raw) = normalizeTags raw := by
  induction raw with
  | nil => rfl
  | cons t ts ih =>
    by_cases h : trimSpace t = []
    · simp [normalizeTags, h, ih]
    · have htrim : trimSpace (toLowerL (trimSpace t)) = toLowerL (trimSpace t) := by
        rw [lower_trim, trim_trim]
      have hne : toLowerL (trimSpace t) ≠ [] := by
        rw [Ne, toLowerL_eq_nil]
        exact h
      have hne2 : trimSpace (toLowerL (trimSpace t)) ≠ [] := by
        rw [htrim]
        exact hne
      simp only [normalizeTags, h, if_neg h]
      simp only [normalizeTags, htrim]
      rw [if_neg hne, toLowerL_idem, ih]
      simp

/-- C6: tag normalization trims whitespace, lowercases, drops empty
strings, and (at set level) deduplicates, producing the desired tag name
set of the spec; and it is idempotent. -/
theorem tag_normalizer_set_and_idem (raw : List (List Nat)) :
    (normalizeTags raw).toFinset = specDesiredTags raw ∧
      normalizeTags (normalizeTags raw) = normalizeTags raw :=
  ⟨congrArg List.toFinset (normalizeTags_eq_filterMap raw), normalizeTags_idem raw⟩

/-! ## Lemmas about the decimal codec and the pg array roundtrip -/

lemma natToDecAux_foldl (fuel : Nat) :
    ∀ n a, n < 10 ^ fuel →
      (natToDecAux fuel n).foldl (fun acc c => acc * 10 + (c - 48)) a =
        a * 10 ^ (natToDecAux fuel n).length + n := by
  induction fuel with
  | zero =>
    intro n a h
    interval_cases n
    simp [natToDecAux]
  | succ fuel ih =>
    intro n a h
    by_cases hn : n = 0
    · simp [natToDecAux, hn]
    · have hdiv : n / 10 < 10 ^ fuel := by
        apply Nat.div_lt_of_lt_mul
        rw [mul_comm]
        calc n < 10 ^ (fuel + 1) := h
          _ = 10 ^ fuel * 10 := by ring
      have hmod : n % 10 + 48 - 48 = n % 10 := by omega
      simp only [natToDecAux, if_neg hn, List.foldl_append, List.foldl_cons,
        List.foldl_nil, List.length_append, List.length_cons, List.length_nil,
        ih (n / 10) a hdiv, hmod]
      have heq : (a * 10 ^ (natToDecAux fuel (n / 10)).length + n / 10) * 10 + n % 10 =
          a * (10 ^ (natToDecAux fuel (n / 10)).length * 10) + (n / 10 * 10 + n % 10) := by
        ring
      have hp : 10 ^ ((natToDecAux fuel (n / 10)).length + (0 + 1)) =
          10 ^ (natToDecAux fuel (n / 10)).length * 10 := by
        simp [pow_succ]
      have hd : n / 10 * 10 + n % 10 = n := by omega
      rw [heq, hp, hd]

lemma natToDecAux_digits (fuel : Nat) :
    ∀ n c, c ∈ natToDecAux fuel n → 48 ≤ c ∧ c ≤ 57 := by
  induction fuel with
  | zero => intro n c h; simp [natToDecAux] at h
  | succ fuel ih =>
    intro n c h
    by_cases hn : n = 0
    · simp [natToDecAux, hn] at h
    · simp only [natToDecAux, if_neg hn, List.mem_append, List.mem_singleton] at h
      rcases h with h | h
      · exact ih _ _ h
      · have : n % 10 < 10 := Nat.mod_lt _ (by norm_num)
        omega

lemma natToDecAux_ne_nil (fuel n : Nat) (h : n ≠ 0) (hf : fuel ≠ 0) :
    natToDecAux fuel n ≠ [] := by
  cases fuel with
  | zero => exact absurd rfl hf
  | succ fuel => simp [natToDecAux, h]

lemma natToDec_ne_nil (n : Nat) : natToDec n ≠ [] := by
  by_cases h : n = 0
  · simp [natToDec, h]
  · simp only [natToDec, if_neg h]
    exact natToDecAux_ne_nil _ _ h (by norm_num)

lemma natToDec_digits (n : Nat) : ∀ c ∈ natToDec n, 48 ≤ c ∧ c ≤ 57 := by
  intro c hc
  by_cases h : n = 0
  · simp [natToDec, h] at hc
    omega
  · simp only [natToDec, if_neg h] at hc
    exact natToDecAux_digits _ _ _ hc

lemma decToNat_natToDec (n : Nat) (h : n < 10 ^ 19) : decToNat? (natToDec n) = some n := by
  by_cases hz : n = 0
  · subst hz
    rfl
  · have h64 : n < 10 ^ 64 :=
      lt_of_lt_of_le h (Nat.pow_le_pow_right (by norm_num) (by norm_num))
    have hne : natToDec n ≠ [] := natToDec_ne_nil n
    have hall : (natToDec n).all (fun c => 48 ≤ c && c ≤ 57) = true := by
      rw [List.all_eq_true]
      intro c hc
      have := natToDec_digits n c hc
      simp only [Bool.and_eq_true, decide_eq_true_eq]
      omega
    rw [decToNat?, if_pos ⟨hne, hall⟩]
    simp only [natToDec, if_neg hz]
    rw [natToDecAux_foldl 64 n 0 h64]
    simp

lemma intToDec_ne_nil (n : Int) : intToDec n ≠ [] := by
  unfold intToDec
  split
  · simp
  · exact natToDec_ne_nil _

lemma getLast?_cons_ne (x : Nat) (l : List Nat) (h : l ≠ []) :
    (x :: l).getLast? = l.getLast? := by
  cases l with
  | nil => exact absurd rfl h
  | cons b t => rw [List.getLast?_cons_cons]

lemma intToDec_head (n : Int) (c : Nat) (h : (intToDec n).head? = some c) :
    (48 ≤ c ∧ c ≤ 57) ∨ c = 45 := by
  unfold intToDec at h
  split at h
  · simp at h
    omega
  · have hm : c ∈ (natToDec n.toNat).head? := by simp [h]
    exact Or.inl (natToDec_digits _ c (List.mem_of_mem_head? hm))

lemma intToDec_last (n : Int) (c : Nat) (h : (intToDec n).getLast? = some c) :
    48 ≤ c ∧ c ≤ 57 := by
  unfold intToDec at h
  split at h
  · rw [getLast?_cons_ne _ _ (natToDec_ne_nil _)] at h
    have hm : c ∈ (natToDec (-n).toNat).getLast? := by simp [h]
    exact natToDec_digits _ c (List.mem_of_mem_getLast? hm)
  · have hm : c ∈ (natToDec n.toNat).getLast? := by simp [h]
    exact natToDec_digits _ c (List.mem_of_mem_getLast? hm)

lemma intToDec_no_comma (n : Int) : ∀ c ∈ intToDec n, (c == 44) = false := by
  intro c hc
  unfold intToDec at hc
  have : (48 ≤ c ∧ c ≤ 57) ∨ c = 45 := by
    split at hc
    · rcases List.mem_cons.1 hc with h | h
      · omega
      · exact Or.inl (natToDec_digits _ c h)
    · exact Or.inl (natToDec_digits _ c hc)
  simp only [beq_eq_false_iff_ne, ne_eq]
  omega

lemma goAtoi_intToDec (n : Int) (h : inInt64 n = true) : goAtoi (intToDec n) = some n := by
  have hb : -9223372036854775808 ≤ n ∧ n ≤ 9223372036854775807 := by
    simpa [inInt64] using h
  by_cases hneg : n < 0
  · have hval : ((-n).toNat : Int) = -n := Int.toNat_of_nonneg (by omega)
    have hm : (-n).toNat < 10 ^ 19 := by
      have h10 : ((10 : Int) ^ 19) = 10000000000000000000 := by norm_num
      omega
    simp only [goAtoi, intToDec, if_pos hneg, decToNat_natToDec _ hm]
    simp [hval, inInt64]
    omega
  · have hval : (n.toNat : Int) = n := Int.toNat_of_nonneg (by omega)
    have hm : n.toNat < 10 ^ 19 := by omega
    have hhead : ∃ c cs, natToDec n.toNat = c :: cs ∧ 48 ≤ c ∧ c ≤ 57 := by
      rcases hl : natToDec n.toNat with _ | ⟨c, cs⟩
      · exact absurd hl (natToDec_ne_nil _)
      · exact ⟨c, cs, rfl, natToDec_digits _ c (by rw [hl]; exact List.mem_cons_self ..)⟩
    rcases hhead with ⟨c, cs, hl, hc1, hc2⟩
    simp only [goAtoi, intToDec, if_neg hneg, hl]
    rw [if_neg (by omega), if_neg (by omega), ← hl]
    simp only [decToNat_natToDec _ hm]
    simp [hval, inInt64]
    omega

lemma splitOnP_ne_nil (p : Nat → Bool) (l : List Nat) : splitOnP p l ≠ [] := by
  induction l with
  | nil => simp [splitOnP]
  | cons c rest ih =>
    by_cases hc : p c
    · simp [splitOnP, hc]
    · rcases hs : splitOnP p rest with _ | ⟨t, ts⟩
      · exact absurd hs ih
      · simp [splitOnP, hc, hs]

lemma splitOnP_no_sep (p : Nat → Bool) (x : List Nat) (hx : ∀ c ∈ x, p c = false) :
    splitOnP p x = [x] := by
  induction x with
  | nil => rfl
  | cons c cs ih =>
    have hc : p c = false := hx c (List.mem_cons_self ..)
    have ihs : splitOnP p cs = [cs] := ih (fun d hd => hx d (List.mem_cons_of_mem _ hd))
    simp [splitOnP, hc, ihs]

lemma splitOnP_append_sep (p : Nat → Bool) (s0 : Nat) (hs : p s0 = true) (x r : List Nat)
    (hx : ∀ c ∈ x, p c = false) :
    splitOnP p (x ++ s0 :: r) = x :: splitOnP p r := by
  induction x with
  | nil => simp [splitOnP, hs]
  | cons c cs ih =>
    have hc : p c = false := hx c (List.mem_cons_self ..)
    have ihs := ih (fun d hd => hx d (List.mem_cons_of_mem _ hd))
    simp [splitOnP, hc, ihs]

lemma splitOnP_joinComma (pieces : List (List Nat)) (hne : pieces ≠ [])
    (hx : ∀ x ∈ pieces, ∀ c ∈ x, (c == 44) = false) :
    splitOnP (fun c => c == 44) (joinComma pieces) = pieces := by
  induction pieces with
  | nil => exact absurd rfl hne
  | cons x xs ih =>
    cases xs with
    | nil => exact splitOnP_no_sep _ x (hx x (List.mem_cons_self ..))
    | cons y rest =>
      have hxx : ∀ c ∈ x, (fun c => c == 44) c = false := hx x (List.mem_cons_self ..)
      have hy : ∀ z ∈ y :: rest, ∀ c ∈ z, (c == 44) = false :=
        fun z hz => hx z (List.mem_cons_of_mem _ hz)
      have hjc : joinComma (x :: y :: rest) = x ++ 44 :: joinComma (y :: rest) := rfl
      rw [hjc, splitOnP_append_sep _ 44 (by simp) x _ hxx, ih (by simp) hy]

lemma joinComma_ne_nil (pieces : List (List Nat)) (hne : pieces ≠ [])
    (hx : ∀ x ∈ pieces, x ≠ []) : joinComma pieces ≠ [] := by
  cases pieces with
  | nil => exact absurd rfl hne
  | cons x xs =>
    cases xs with
    | nil => exact hx x (List.mem_cons_self ..)
    | cons y rest =>
      have : joinComma (x :: y :: rest) = x ++ 44 :: joinComma (y :: rest) := rfl
      rw [this]
      simp

lemma joinComma_head_ok (pieces : List (List Nat))
    (hx : ∀ x ∈ pieces, x ≠ [] ∧ ∀ c, x.head? = some c → ((48 ≤ c ∧ c ≤ 57) ∨ c = 45)) :
    ∀ c, (joinComma pieces).head? = some c → (48 ≤ c ∧ c ≤ 57) ∨ c = 45 := by
  intro c hc
  cases pieces with
  | nil => simp [joinComma] at hc
  | cons x xs =>
    have hx1 := hx x (List.mem_cons_self ..)
    cases xs with
    | nil => exact hx1.2 c hc
    | cons y rest =>
      have hj : joinComma (x :: y :: rest) = x ++ 44 :: joinComma (y :: rest) := rfl
      rw [hj, List.head?_append_of_ne_nil _ hx1.1] at hc
      exact hx1.2 c hc

lemma joinComma_last_ok (pieces : List (List Nat))
    (hx : ∀ x ∈ pieces, x ≠ [] ∧ ∀ c, x.getLast? = some c → 48 ≤ c ∧ c ≤ 57) :
    ∀ c, (joinComma pieces).getLast? = some c → 48 ≤ c ∧ c ≤ 57 := by
  induction pieces with
  | nil => intro c hc; simp [joinComma] at hc
  | cons x xs ih =>
    intro c hc
    cases xs with
    | nil => exact (hx x (List.mem_cons_self ..)).2 c hc
    | cons y rest =>
      have hj : joinComma (x :: y :: rest) = x ++ 44 :: joinComma (y :: rest) := rfl
      have hys : ∀ z ∈ y :: rest, z ≠ [] ∧ ∀ c, z.getLast? = some c → 48 ≤ c ∧ c ≤ 57 :=
        fun z hz => hx z (List.mem_cons_of_mem _ hz)
      have hjy : joinComma (y :: rest) ≠ [] :=
        joinComma_ne_nil _ (by simp) (fun z hz => (hys z hz).1)
      rw [hj, List.getLast?_append_of_ne_nil _ (by simp),
        getLast?_cons_ne _ _ hjy] at hc
      exact ih hys c hc

lemma trimBraces_wrap (content : List Nat)
    (h1 : ∀ c, content.head? = some c → (c == 123) = false)
    (h2 : ∀ c, content.getLast? = some c → (c == 125) = false) :
    trimBraces (123 :: (content ++ [125])) = content := by
  cases content with
  | nil => rfl
  | cons c cs =>
    have hc : (c == 123) = false := h1 c rfl
    have hdrop1 :
        List.dropWhile (fun c => c == 123) (123 :: ((c :: cs) ++ [125])) =
          (c :: cs) ++ [125] := by
      rw [List.dropWhile_cons, if_pos (by simp), List.cons_append, List.dropWhile_cons,
        if_neg (by simp [hc])]
    have hrev : ((c :: cs) ++ [125]).reverse = 125 :: (c :: cs).reverse := by
      simp
    have hdrop2 :
        List.dropWhile (fun c => c == 125) (125 :: (c :: cs).reverse) =
          (c :: cs).reverse := by
      rw [List.dropWhile_cons, if_pos (by simp)]
      apply dropWhile_eq_self
      intro d hd
      rw [List.head?_reverse] at hd
      exact h2 d hd
    rw [trimBraces, hdrop1, hrev, hdrop2, List.reverse_reverse]

lemma goAtoi_inInt64 (s : List Nat) (n : Int) (h : goAtoi s = some n) : inInt64 n = true := by
  simp only [goAtoi, Option.bind_eq_some] at h
  rcases h with ⟨m, _, hm⟩
  by_cases hin : inInt64 m = true
  · rw [if_pos hin] at hm
    cases hm
    exact hin
  · rw [if_neg hin] at hm
    cases hm

lemma filterMap_intToDec (v : List Int) (hv : ∀ n ∈ v, inInt64 n = true) :
    (v.map intToDec).filterMap goAtoi = v := by
  induction v with
  | nil => rfl
  | cons m ms ih =>
    have hm := hv m (List.mem_cons_self ..)
    have hms : ∀ n ∈ ms, inInt64 n = true :=
      fun n hn => hv n (List.mem_cons_of_mem _ hn)
    simp [List.filterMap_cons, goAtoi_intToDec m hm, ih hms]

lemma pg_roundtrip (v : List Int) (hv : ∀ n ∈ v, inInt64 n = true) :
    pgArrToIntSlice (intSliceToPgArr v) = v := by
  rcases v with _ | ⟨n0, rest⟩
  · rfl
  · have hhead :
        ∀ c, (joinComma ((n0 :: rest).map intToDec)).head? = some c → (c == 123) = false := by
      intro c hc
      have := joinComma_head_ok ((n0 :: rest).map intToDec)
        (fun x hx => by
          rcases List.mem_map.1 hx with ⟨m, _, rfl⟩
          exact ⟨intToDec_ne_nil m, fun d hd => intToDec_head m d hd⟩) c hc
      simp only [beq_eq_false_iff_ne, ne_eq]
      omega
    have hlast :
        ∀ c, (joinComma ((n0 :: rest).map intToDec)).getLast? = some c → (c == 125) = false := by
      intro c hc
      have := joinComma_last_ok ((n0 :: rest).map intToDec)
        (fun x hx => by
          rcases List.mem_map.1 hx with ⟨m, _, rfl⟩
          exact ⟨intToDec_ne_nil m, fun d hd => intToDec_last m d hd⟩) c hc
      simp only [beq_eq_false_iff_ne, ne_eq]
      omega
    have hsplit :
        splitOnP (fun c => c == 44) (joinComma ((n0 :: rest).map intToDec)) =
          (n0 :: rest).map intToDec :=
      splitOnP_joinComma _ (by simp)
        (fun x hx => by
          rcases List.mem_map.1 hx with ⟨m, _, rfl⟩
          exact intToDec_no_comma m)
    rw [pgArrToIntSlice, intSliceToPgArr, trimBraces_wrap _ hhead hlast, hsplit,
      filterMap_intToDec _ hv]

lemma getVotes_int64 (u : UserM) : ∀ n ∈ getVotes u, inInt64 n = true := by
  intro n hn
  rcases List.mem_filterMap.1 hn with ⟨s, _, hs⟩
  exact goAtoi_inInt64 s n hs

lemma getVotes_registerVote (u : UserM) (p : Int) (hp : inInt64 p = true) :
    getVotes (registerVote u p) = getVotes u ++ [p] := by
  have hb : ∀ n ∈ getVotes u ++ [p], inInt64 n = true := by
    intro n hn
    rcases List.mem_append.1 hn with h | h
    · exact getVotes_int64 u n h
    · rw [List.mem_singleton.1 h]
      exact hp
  simpa [registerVote, setVotes, getVotes] using pg_roundtrip (getVotes u ++ [p]) hb

/-! ## Claim C10: pg array roundtrip and RegisterVote/HasVoted -/

/-- C10: decoding the PostgreSQL-array encoding of a slice of 64-bit
integers returns the same slice (the empty slice encodes as the two brace
characters); consequently RegisterVote makes HasVoted true for the new
photo id and preserves every previously recorded entry. -/
theorem pg_array_roundtrip_and_votes (v : List Int) (hv : ∀ n ∈ v, inInt64 n = true)
    (u : UserM) (p : Int) (hp : inInt64 p = true) :
    pgArrToIntSlice (intSliceToPgArr v) = v ∧
      intSliceToPgArr [] = [123, 125] ∧
      getVotes (registerVote u p) = getVotes u ++ [p] ∧
      hasVoted (registerVote u p) p = true := by
  refine ⟨pg_roundtrip v hv, rfl, getVotes_registerVote u p hp, ?_⟩
  rw [hasVoted, getVotes_registerVote u p hp]
  simp

/-- Concrete user for the witnesses: id 5, empty vote set. -/
def witUser : UserM :=
  { id := 5, name := [98, 111, 98], password := [104], email := [101],
    votes := [123, 125], isAdmin := false, isActive := true, isAuthenticated := true }

/-- C10 witness at the slice [2, 9] and photo id 9. -/
theorem pg_array_roundtrip_witness :
    pgArrToIntSlice (intSliceToPgArr [2, 9]) = [2, 9] ∧
      intSliceToPgArr [] = [123, 125] ∧
      getVotes (registerVote witUser 9) = getVotes witUser ++ [9] ∧
      hasVoted (registerVote witUser 9) 9 = true :=
  pg_array_roundtrip_and_votes [2, 9] (by decide) witUser 9 (by decide)

/-! ## Claim C2: sequential vote registration -/

/-- C2: for an authenticated non-owner who has not voted on an existing
photo, one sequential vote increments exactly the selected counter by 1,
leaves the other counter alone, appends the photo id to the vote set and
makes HasVoted true; an unauthenticated, owner or already-voted request is
rejected and changes neither the user row nor the photo row. -/
theorem vote_sequential_effect (u : UserM) (p : PhotoM) (up : Bool)
    (hp : inInt64 p.id = true) :
    (u.isAuthenticated = true → p.ownerId ≠ u.id → hasVoted u p.id = false →
      (voteHandler u (some p) up).1 = VoteOutcome.success ∧
      (voteHandler u (some p) up).2.2 =
        some (if up then { p with upVotes := p.upVotes + 1 }
              else { p with downVotes := p.downVotes + 1 }) ∧
      getVotes (voteHandler u (some p) up).2.1 = getVotes u ++ [p.id] ∧
      hasVoted (voteHandler u (some p) up).2.1 p.id = true) ∧
    ((u.isAuthenticated = false ∨ p.ownerId = u.id ∨ hasVoted u p.id = true) →
      (voteHandler u (some p) up).1 ≠ VoteOutcome.success ∧
      (voteHandler u (some p) up).2.1 = u ∧
      (voteHandler u (some p) up).2.2 = some p) := by
  constructor
  · intro hauth howner hvoted
    have hbeq : (p.ownerId == u.id) = false := beq_eq_false_iff_ne.mpr howner
    have hcv : canVote p (some u) = true := by
      simp [canVote, hauth, hbeq, hvoted]
    have hrun : voteHandler u (some p) up =
        (VoteOutcome.success, registerVote u p.id,
          some (if up then { p with upVotes := p.upVotes + 1 }
                else { p with downVotes := p.downVotes + 1 })) := by
      unfold voteHandler
      rw [hauth]
      simp [hcv]
    refine ⟨by rw [hrun], by rw [hrun], ?_, ?_⟩
    · rw [hrun]
      exact getVotes_registerVote u p.id hp
    · rw [hrun]
      show hasVoted (registerVote u p.id) p.id = true
      rw [hasVoted, getVotes_registerVote u p.id hp]
      simp
  · intro hrej
    by_cases hauth : u.isAuthenticated = true
    · have hcv : canVote p (some u) = false := by
        rcases hrej with h | h | h
        · rw [hauth] at h
          cases h
        · have hbeq : (p.ownerId == u.id) = true := beq_iff_eq.mpr h
          simp [canVote, hauth, hbeq]
        · cases hbeq : (p.ownerId == u.id) <;> simp [canVote, hauth, h, hbeq]
      have hrun : voteHandler u (some p) up = (VoteOutcome.forbidden, u, some p) := by
        unfold voteHandler
        rw [hauth]
        simp [hcv]
      exact ⟨by rw [hrun]; simp, by rw [hrun], by rw [hrun]⟩
    · have heq : u.isAuthenticated = false := by
        simpa using hauth
      have hrun : voteHandler u (some p) up = (VoteOutcome.unauthorized, u, some p) := by
        unfold voteHandler
        rw [heq]
        simp
      exact ⟨by rw [hrun]; simp, by rw [hrun], by rw [hrun]⟩

/-- Concrete photo for the witnesses: id 9 owned by user 1. -/
def witPhoto : PhotoM :=
  { id := 9, ownerId := 1, title := [116], upVotes := 0, downVotes := 0 }

/-- C2 witness: user 5 voteUp on photo 9 succeeds with upVotes 1 and vote
set extended by 9. -/
theorem vote_sequential_effect_witness :
    (voteHandler witUser (some witPhoto) true).1 = VoteOutcome.success ∧
      (voteHandler witUser (some witPhoto) true).2.2 =
        some (if true then { witPhoto with upVotes := witPhoto.upVotes + 1 }
              else { witPhoto with downVotes := witPhoto.downVotes + 1 }) ∧
      getVotes (voteHandler witUser (some witPhoto) true).2.1 =
        getVotes witUser ++ [witPhoto.id] ∧
      hasVoted (voteHandler witUser (some witPhoto) true).2.1 witPhoto.id = true :=
  (vote_sequential_effect witUser witPhoto true (by decide)).1 (by decide) (by decide)
    (by decide)

/-! ## Claim C1: two concurrent vote registrations -/

/-- C1: interleaving two voteUp requests for the same (user, photo) pair
as the unguarded store operations of the handler permit - A passes the
CanVote check and writes the photo row, B then passes its own CanVote
check (the vote set is still empty in the store), A writes the user row,
B writes both rows - ends with both requests reporting success and the
up-vote counter at 2. This refutes the claimed invariant that at most one
registration can ever succeed and the counter can only rise by 1. -/
theorem vote_race_double_success :
    runSched [true, true, false, true, false, false]
        ({ votesStr := [123, 125], up := 0, down := 0 }, VotePhase.ready, VotePhase.ready) =
      ({ votesStr := [123, 57, 125], up := 2, down := 0 },
        VotePhase.finished true, VotePhase.finished true) := by
  decide

/-! ## Claim C5: the numPages computation -/

/-- C5: NewPhotoList computes numPages through float64 arithmetic, and at
total 9007199254740997 (which is 12 * 750599937895083 + 1, just above
2^53) the conversion to float64 rounds down to a multiple of 12, so the
code reports 750599937895083 pages while ceil(total / 12) is
750599937895084: the claimed identity numPages = ceil(total / 12) fails. -/
theorem numpages_float_divergence :
    numPagesGo 9007199254740997 = 750599937895083 ∧
      (9007199254740997 + 11) / 12 = 750599937895084 ∧
      (newPhotoList 9007199254740997 1).numPages ≠ (9007199254740997 + 11) / 12 ∧
      getOffset 1 = 0 ∧ getOffset 0 = 0 ∧ getOffset (-5) = 0 ∧ getOffset 3 = 24 := by
  refine ⟨by decide, by decide, ?_, by decide, by decide, by decide, by decide⟩
  show numPagesGo 9007199254740997 ≠ 750599937895084
  decide

/-! ## Claim C7: tag synchronization with an empty desired set -/

/-- C7: for an existing photo (nonzero id), synchronizing with raw tags
that normalize to the empty set removes every association of that photo,
so the subsequent tag read returns the empty set. -/
theorem sync_empty_removes_all (db : TagDB) (photoId : Int) (raw : List (List Nat))
    (hid : photoId ≠ 0) (hempty : normalizeTags raw = []) :
    readTags (updateTags db photoId raw) photoId = [] := by
  have hcond : (normalizeTags raw = [] ∧ photoId ≠ 0) := ⟨hempty, hid⟩
  have hupd : updateTags db photoId raw =
      { db with photoTags := db.photoTags.filter (fun pt => pt.1 != photoId) } := by
    unfold updateTags
    rw [if_pos hcond]
  rw [hupd, readTags]
  have hnil :
      ((db.photoTags.filter (fun pt => pt.1 != photoId)).filter
        (fun pt => pt.1 == photoId)) = [] := by
    rw [List.filter_eq_nil_iff]
    intro pt hpt
    have h1 : (pt.1 != photoId) = true := (List.mem_filter.1 hpt).2
    simp only [bne_iff_ne, ne_eq] at h1
    simp [h1]
  simp only [hnil, List.flatMap_nil]

/-- Concrete tag database for the C7 witness. -/
def witTagDB : TagDB :=
  { tags := [(1, [99, 97, 116, 115])], photoTags := [(9, 1)] }

/-- C7 witness: photo 9 with a raw tag list of one all-whitespace string
ends with no readable tags. -/
theorem sync_empty_removes_all_witness : readTags (updateTags witTagDB 9 [[32]]) 9 = [] :=
  sync_empty_removes_all witTagDB 9 [[32]] (by decide) (by decide)

/-! ## Claim C8: the Permissions triple -/

/-- C8 (amended): for a present viewer, canEdit is authentication AND
(admin OR ownership) - the authentication conjunct is what the original
claim omitted - canDelete equals canEdit, and canVote is authentication
AND not-owner AND not-already-voted, so canVote is false for the owner
even if they never voted and false after a vote even for a non-owner; an
absent viewer gets all three false. -/
theorem permissions_formula (p : PhotoM) (u : UserM) :
    canEdit p (some u) = (u.isAuthenticated && (u.isAdmin || p.ownerId == u.id)) ∧
      canDelete p (some u) = canEdit p (some u) ∧
      canVote p (some u) =
        (u.isAuthenticated && !(p.ownerId == u.id) && !(hasVoted u p.id)) ∧
      canEdit p none = false ∧ canDelete p none = false ∧ canVote p none = false := by
  refine ⟨?_, rfl, ?_, rfl, rfl, rfl⟩
  · cases hauth : u.isAuthenticated <;> simp [canEdit, hauth]
  · cases hauth : u.isAuthenticated
    · simp [canVote, hauth]
    · cases hbeq : (p.ownerId == u.id) <;> simp [canVote, hauth, hbeq]

/-- Unauthenticated viewer whose id equals the photo owner's id. -/
def cexViewer : UserM :=
  { id := 1, name := [], password := [], email := [], votes := [123, 125],
    isAdmin := false, isActive := true, isAuthenticated := false }

/-- C8 counterexample: for photo 9 (owner 1) and the unauthenticated
viewer with id 1, the claimed formula isAdmin OR id-match evaluates true
while the code's CanEdit returns false: the claim omits the
authentication conjunct. -/
theorem permissions_claim_counterexample :
    (cexViewer.isAdmin || witPhoto.ownerId == cexViewer.id) = true ∧
      canEdit witPhoto (some cexViewer) = false := by
  decide

/-! ## Claim C9: uniform authentication rejection -/

/-- C9: authenticate succeeds only with an active user whose email or
name equals the identifier and whose password verifies (with the empty
stored hash always failing); and both failure paths - no matching active
row, and a matching row with a failing password check - return the one
empty result, so the caller cannot tell them apart. -/
theorem authenticate_uniform_rejection (verify : List Nat → List Nat → Bool)
    (db : List UserM) (ident pw : List Nat) :
    (∀ u, authenticate verify db ident pw = some u →
        u ∈ db ∧ u.isActive = true ∧ (u.email = ident ∨ u.name = ident) ∧
          checkPasswordW verify u pw = true) ∧
    (findActiveByIdent db ident = none → authenticate verify db ident pw = none) ∧
    (∀ u, findActiveByIdent db ident = some u → checkPasswordW verify u pw = false →
        authenticate verify db ident pw = none) := by
  refine ⟨?_, ?_, ?_⟩
  · intro u hu
    unfold authenticate at hu
    cases hf : findActiveByIdent db ident with
    | none =>
      rw [hf] at hu
      cases hu
    | some w =>
      rw [hf] at hu
      have hu' : (if checkPasswordW verify w pw = true then some w else none) = some u := hu
      by_cases hcp : checkPasswordW verify w pw = true
      · rw [if_pos hcp] at hu'
        injection hu' with hwu
        subst hwu
        have hmem : w ∈ db := List.mem_of_find?_eq_some hf
        have hprop := List.find?_some hf
        simp only [Bool.and_eq_true, Bool.or_eq_true, beq_iff_eq] at hprop
        exact ⟨hmem, hprop.1, hprop.2, hcp⟩
      · rw [if_neg hcp] at hu'
        cases hu'
  · intro hf
    unfold authenticate
    rw [hf]
  · intro u hf hcp
    simp [authenticate, hf, hcp]

/-! ## Claim C4: Search tokenization -/

lemma tokenizeAux_eq (ws : List (List Nat)) :
    ∀ num, tokenizeAux num ws =
      (((ws.map trimSpace).takeWhile (fun w => w != [])).take (7 - num)) := by
  induction ws with
  | nil => intro num; simp [tokenizeAux]
  | cons w ws ih =>
    intro num
    by_cases hw : trimSpace w = []
    · simp [tokenizeAux, hw, List.takeWhile_cons]
    · by_cases hnum : num > 6
      · have h7 : 7 - num = 0 := by omega
        simp [tokenizeAux, hw, hnum, h7]
      · have hcond : ¬(trimSpace w = [] ∨ num > 6) := by
          push_neg
          exact ⟨hw, by omega⟩
        have hstep : 7 - num = (7 - (num + 1)) + 1 := by omega
        simp only [tokenizeAux, if_neg hcond, List.map_cons, List.takeWhile_cons,
          bne_iff_ne, ne_eq, hw, not_false_eq_true, if_pos, hstep, List.take_succ_cons,
          ih (num + 1)]
        rw [if_neg (by simpa using hnum)]

/-- C4 (amended): Search tokenization splits the query on single space
characters, trims whitespace from each piece, stops at the first piece
that is empty after trimming (that piece and all later ones are ignored,
not an error), and uses at most the first 7 surviving pieces - not 6:
the loop breaks only once the 0-based index exceeds 6. -/
theorem tokenize_behavior (q : List Nat) :
    tokenize q =
      ((((splitOnP (fun c => c == 32) q).map trimSpace).takeWhile
        (fun w => w != [])).take 7) := by
  simpa using tokenizeAux_eq (splitOnP (fun c => c == 32) q) 0

/-- C4 counterexample: the seven-word query "a b c d e f g" compiles 7
tokens, not at most 6; and the query "a  b" (two spaces) yields only the
token "a" where the claim demands "a" and "b" - the loop breaks at the
empty piece instead of continuing. -/
theorem tokenize_claim_counterexample :
    (tokenize [97, 32, 98, 32, 99, 32, 100, 32, 101, 32, 102, 32, 103]).length = 7 ∧
      tokenize [97, 32, 32, 98] = [[97]] ∧
      specTokenize [97, 32, 32, 98] = [[97], [98]] := by
  decide

/-! ## Claim C3: intersection semantics of Search -/

lemma mem_intersectRows (l1 l2 : List PhotoM) (p : PhotoM) :
    p ∈ intersectRows l1 l2 ↔ p ∈ l1 ∧ p ∈ l2 := by
  simp [intersectRows, List.mem_filter]

lemma mem_clauseRows (db : SearchDB) (tok : SearchTok) (p : PhotoM) :
    p ∈ clauseRows db tok ↔ p ∈ db.photos ∧ tokMatches db tok p = true :=
  List.mem_filter

lemma foldl_inter_clause (db : SearchDB) (ts : List SearchTok) :
    ∀ (acc : List PhotoM) (p : PhotoM),
      p ∈ ts.foldl (fun a tk => intersectRows a (clauseRows db tk)) acc ↔
        p ∈ acc ∧ ∀ tk ∈ ts, p ∈ clauseRows db tk := by
  induction ts with
  | nil => intro acc p; simp
  | cons t ts ih =>
    intro acc p
    rw [List.foldl_cons, ih, mem_intersectRows]
    constructor
    · rintro ⟨⟨hacc, hct⟩, hall⟩
      refine ⟨hacc, ?_⟩
      intro tk htk
      rcases List.mem_cons.1 htk with heq | hmem
      · rw [heq]
        exact hct
      · exact hall tk hmem
    · rintro ⟨hacc, hall⟩
      exact ⟨⟨hacc, hall t (List.mem_cons_self ..)⟩,
        fun tk htk => hall tk (List.mem_cons_of_mem _ htk)⟩

/-- C3 (amended): whenever Search runs (non-empty query with at least one
surviving token), a photo is in the candidate set it returns iff it
satisfies every surviving token's compiled predicate - the INTERSECT of
the sub-queries, never the union. The predicates are owner-exact
(case-insensitive) for at-tokens, tag-exact (case-insensitive) for
hash-tokens, and otherwise a fuzzy LIKE on the percent-wrapped word that
is case-insensitive over title and owner name but case-SENSITIVE over
tag names (the source omits UPPER on the tag disjunct, which is what the
original claim got wrong). -/
theorem search_intersection_semantics (db : SearchDB) (q : List Nat) (res : List PhotoM)
    (h : searchCandidates db q = some res) (p : PhotoM) :
    p ∈ res ↔ p ∈ db.photos ∧ ∀ tok ∈ searchToks q, tokMatches db tok p = true := by
  unfold searchCandidates at h
  by_cases hq : q = []
  · rw [if_pos hq] at h
    cases h
  · rw [if_neg hq] at h
    cases htoks : searchToks q with
    | nil =>
      rw [htoks] at h
      cases h
    | cons t ts =>
      rw [htoks] at h
      injection h with hres
      subst hres
      rw [foldl_inter_clause db ts (clauseRows db t) p, mem_clauseRows]
      constructor
      · rintro ⟨⟨hph, htm⟩, hall⟩
        refine ⟨hph, ?_⟩
        intro tok htok
        rcases List.mem_cons.1 htok with heq | hmem
        · rw [heq]
          exact htm
        · exact ((mem_clauseRows db tok p).1 (hall tok hmem)).2
      · rintro ⟨hph, hall⟩
        refine ⟨⟨hph, hall t (List.mem_cons_self ..)⟩, ?_⟩
        intro tok htok
        exact (mem_clauseRows db tok p).2 ⟨hph, hall tok (List.mem_cons_of_mem _ htok)⟩

/-- Photo for the C3 witness database. -/
def searchWitPhoto : PhotoM :=
  { id := 1, ownerId := 1, title := [97], upVotes := 0, downVotes := 0 }

/-- One-photo, one-user database for the C3 witness. -/
def searchWitDB : SearchDB :=
  { photos := [searchWitPhoto],
    users := [{ id := 1, name := [97], password := [], email := [], votes := [123, 125],
                isAdmin := false, isActive := true, isAuthenticated := false }],
    tags := [], photoTags := [] }

/-- C3 witness: the one-token query "a" over the one-photo database. -/
theorem search_intersection_semantics_witness :
    searchCandidates searchWitDB [97] = some [searchWitPhoto] ∧
      (searchWitPhoto ∈ [searchWitPhoto] ↔
        searchWitPhoto ∈ searchWitDB.photos ∧
          ∀ tok ∈ searchToks [97], tokMatches searchWitDB tok searchWitPhoto = true) :=
  ⟨by decide,
    search_intersection_semantics searchWitDB [97] [searchWitPhoto] (by decide)
      searchWitPhoto⟩

/-- Photo for the C3 counterexample database: id 9, owner 1, title "t",
tagged "Cats" with a capital C. -/
def searchCexPhoto : PhotoM :=
  { id := 9, ownerId := 1, title := [116], upVotes := 0, downVotes := 0 }

/-- Database for the C3 counterexample. -/
def searchCexDB : SearchDB :=
  { photos := [searchCexPhoto],
    users := [{ id := 1, name := [111], password := [], email := [], votes := [123, 125],
                isAdmin := false, isActive := true, isAuthenticated := false }],
    tags := [(1, [67, 97, 116, 115])], photoTags := [(9, 1)] }

/-- C3 counterexample: for the query "cats", the photo tagged "Cats"
satisfies the claimed predicate of every surviving token (case-insensitive
substring over title, owner name or tag name), yet Search returns the
empty candidate set, because the generated SQL compares tag names
case-sensitively in the fuzzy clause. -/
theorem search_tag_case_counterexample :
    (tokenize [99, 97, 116, 115]).all
        (fun w => specTokMatches searchCexDB w searchCexPhoto) = true ∧
      searchCexPhoto ∈ searchCexDB.photos ∧
      searchCandidates searchCexDB [99, 97, 116, 115] = some [] := by
  decide
